import Mathlib

/-!
Verification of the metro report bot (sources: `bot.py`, `database.py`,
`state_manager.py`, `utils.py`, `main.py`, `admin/ban.py`, `admin/gong.py`,
`admin/trains.py`).

The Python sources are shallowly embedded: Python strings become `List Char`,
SQLite tables become association lists, wall-clock instants become rationals
(seconds) or integers, and every handler is a pure state transformer returning
the updated store together with the replies it sent.  Handlers whose failure
modes matter take the fallible transport call as an explicit oracle.
-/

namespace MetroBot

/-- Python strings are modelled as lists of characters. -/
abbrev Str := List Char

/-- ASCII whitespace recognised by Python's `str.strip()` / `str.split()`
(Python additionally folds some rare Unicode spaces; none occur in this
code base or in any input considered here). -/
def isWs (c : Char) : Bool :=
  c = ' ' || c = '\t' || c = '\n' || c = '\r' || c = '\x0b' || c = '\x0c'

/-- `s.strip()`: drop whitespace from both ends. -/
def pyStrip (s : Str) : Str :=
  ((s.dropWhile isWs).reverse.dropWhile isWs).reverse

/-- Worker for `pySplitWs`: `acc` holds the characters of the token being
read, in reverse. -/
def pySplitWsAux (acc : Str) : Str → List Str
  | [] => if acc = [] then [] else [acc.reverse]
  | c :: cs =>
    if isWs c then
      if acc = [] then pySplitWsAux [] cs
      else acc.reverse :: pySplitWsAux [] cs
    else pySplitWsAux (c :: acc) cs

/-- `s.split()` with no separator: split on whitespace runs, dropping empty
pieces. -/
def pySplitWs (s : Str) : List Str :=
  pySplitWsAux [] s

/-- Worker for `pySplitMax`: `acc` holds the token being read, in reverse.
While no token is being read, `n` is the number of splits still allowed; a
token that begins when `n = 0` extends to the end of the string (internal and
trailing whitespace kept, as Python does). -/
def pySplitMaxAux (acc : Str) (n : Nat) : Str → List Str
  | [] => if acc = [] then [] else [acc.reverse]
  | c :: cs =>
    if isWs c then
      if acc = [] then pySplitMaxAux [] n cs
      else acc.reverse :: pySplitMaxAux [] n cs
    else
      if acc = [] then
        match n with
        | 0 => [c :: cs]
        | m + 1 => pySplitMaxAux [c] m cs
      else pySplitMaxAux (c :: acc) n cs

/-- `s.split(maxsplit=n)`: at most `n` splits on whitespace runs. -/
def pySplitMax (n : Nat) (s : Str) : List Str :=
  pySplitMaxAux [] n s

/-- `s.split("\n")`: split on the literal newline, keeping empty pieces. -/
def pySplitNl : Str → List Str
  | [] => [[]]
  | c :: cs =>
    if c = '\n' then [] :: pySplitNl cs
    else
      match pySplitNl cs with
      | [] => [[c]]
      | t :: ts => (c :: t) :: ts

/-- Character-level model of Python's `str.isdigit`.  Python accepts every
character whose Unicode `Numeric_Type` is `Digit` or `Decimal`; the model
lists the ASCII digits together with the non-ASCII digit blocks exercised in
this development (the Latin-1 superscripts one, two, three and the
Arabic-Indic decimal digits).  Every character accepted here is accepted by
Python. -/
def pyCharIsdigit (c : Char) : Bool :=
  c.isDigit
    || c.toNat = 0xB9 || c.toNat = 0xB2 || c.toNat = 0xB3
    || (0x660 ≤ c.toNat && c.toNat ≤ 0x669)

/-- `s.isdigit()`: true iff the string is non-empty and every character is a
digit. -/
def pyIsdigit (s : Str) : Bool :=
  !s.isEmpty && s.all pyCharIsdigit

/-- Numeric value of an ASCII digit string under base-10 accumulation. -/
def digitsVal (s : Str) : Nat :=
  s.foldl (fun a c => 10 * a + (c.toNat - 48)) 0

/-- Digit tail of Python's `int` literal grammar: `digit (('_')? digit)*`,
consumed after the first digit.  A single underscore may stand between two
digits; it may not lead, trail, or repeat. -/
def pyDigitsCore (acc : Nat) : Str → Option Nat
  | [] => some acc
  | c :: cs =>
    if c.isDigit then pyDigitsCore (10 * acc + (c.toNat - 48)) cs
    else if c = '_' then
      match cs with
      | [] => none
      | d :: ds =>
        if d.isDigit then pyDigitsCore (10 * acc + (d.toNat - 48)) ds else none
    else none

/-- Unsigned part of Python's `int(token)`: a first digit followed by
`pyDigitsCore`. -/
def pyDigitsStart : Str → Option Nat
  | [] => none
  | c :: cs => if c.isDigit then pyDigitsCore (c.toNat - 48) cs else none

/-- Model of Python's `int(token)` on a whitespace-free token (the call sites
only pass tokens produced by `split`): optional sign followed by an ASCII
digit string with optional single grouping underscores; `none` models a
raised `ValueError`.  Python additionally accepts non-ASCII decimal digits;
no such token occurs in this development. -/
def pyInt (s : Str) : Option Int :=
  match s with
  | [] => none
  | c :: cs =>
    if c = '+' then (pyDigitsStart cs).map Int.ofNat
    else if c = '-' then (pyDigitsStart cs).map (fun n => -(n : Int))
    else (pyDigitsStart (c :: cs)).map Int.ofNat

/-- `utils.validate_route_number`: reject when `route.isdigit()` is false,
then when the length differs from 3; otherwise accept.  Returns the
`(valid, error message)` pair of the source. -/
def validate_route_number (route : Str) : Bool × Option Str :=
  if !pyIsdigit route then
    (false, some ("❗️ Маршрут должен содержать только цифры".toList))
  else if route.length ≠ 3 then
    (false, some ("❗️ Маршрут должен быть трёхзначным".toList))
  else
    (true, none)

/-- `utils.parse_time_ago`: the literal label `"Сейчас"` maps to 0; otherwise
`int(time_str.split()[0])`, where an empty split (`IndexError`) or an
unparseable head token (`ValueError`) falls back to 0. -/
def parse_time_ago (time_str : Str) : Int :=
  if time_str = ("Сейчас".toList) then 0
  else
    match pySplitWs time_str with
    | [] => 0
    | t :: _ =>
      match pyInt t with
      | some n => n
      | none => 0

/-- `strftime("%H:%M")` of an instant measured in minutes: the hour and
minute of the day containing it. -/
def formatHM (m : Int) : Nat × Nat :=
  ((((m % 1440) / 60).toNat), ((m % 1440) % 60).toNat)

/-- The pure core of `ReportBot._select_time`: the stored wall-clock string is
`now - parse_time_ago(label)` minutes, rendered as hour and minute. -/
def select_time_stored (label : Str) (nowMinutes : Int) : Nat × Nat :=
  formatHM (nowMinutes - parse_time_ago label)

/-!
`config.py` is not among the sources.  Spec §4.2 fixes the wizard's step
enumeration `Idle → Line → Vehicle (or VehicleManual) → Station → Direction →
Time → RouteChoice (→ RouteManual) → Comment → Confirm`, realised by
`config.States` as distinct integer constants; the `States` namespace below
models them.
-/

namespace States

/-- Modelled from the spec: the `config.States` idle step constant. -/
def IDLE : Nat := 0

/-- Modelled from the spec: the `config.States` line-selection step. -/
def LINE : Nat := 1

/-- Modelled from the spec: the `config.States` vehicle-selection step. -/
def TRAIN : Nat := 2

/-- Modelled from the spec: the `config.States` manual-vehicle step. -/
def TRAIN_MANUAL : Nat := 3

/-- Modelled from the spec: the `config.States` station step. -/
def STATION : Nat := 4

/-- Modelled from the spec: the `config.States` direction step. -/
def DIRECTION : Nat := 5

/-- Modelled from the spec: the `config.States` time step. -/
def TIME : Nat := 6

/-- Modelled from the spec: the `config.States` route-choice step. -/
def ROUTE_CHOICE : Nat := 7

/-- Modelled from the spec: the `config.States` manual-route step. -/
def ROUTE_MANUAL : Nat := 8

/-- Modelled from the spec: the `config.States` comment step. -/
def COMMENT : Nat := 9

/-- Modelled from the spec: the `config.States` confirmation step. -/
def CONFIRM : Nat := 10

end States

/-- A value stored in the per-user `data` mapping (the code stores strings
and message ids). -/
inductive Val where
  | s (v : Str)
  | n (v : Int)
deriving DecidableEq

/-- The JSON object held in `user_states.state_data`.  The code only ever
creates objects whose keys are among `state` and `data`; a `none` field
models the key being absent from the object. -/
structure StateRec where
  state? : Option Nat
  data? : Option (List (Str × Val))
deriving DecidableEq

/-- `dict.get(k)` on a mapping kept in insertion order. -/
def dget (m : List (Str × Val)) (k : Str) : Option Val :=
  (m.find? (fun p => decide (p.1 = k))).map (·.2)

instance : Nonempty Val := ⟨.n 0⟩

instance : Nonempty (Str × Val) := ⟨([], .n 0)⟩

/-- `m[k] = v` on a mapping kept in insertion order: overwrite in place, or
append a new key. -/
def dset : List (Str × Val) → Str → Val → List (Str × Val)
  | [], k, v => [(k, v)]
  | (k', v') :: t, k, v =>
    if k' = k then (k, v) :: t else (k', v') :: dset t k v

/-- The `user_states` table: one row per user id. -/
abbrev StateStore := List (Int × StateRec)

/-- `SELECT state_data FROM user_states WHERE user_id = ?`
(`Database.get_user_state`). -/
def get_user_state (σ : StateStore) (u : Int) : Option StateRec :=
  (σ.find? (fun p => decide (p.1 = u))).map (·.2)

/-- `INSERT OR REPLACE INTO user_states` (`Database.set_user_state`). -/
def set_user_state : StateStore → Int → StateRec → StateStore
  | [], u, r => [(u, r)]
  | (u', r') :: t, u, r =>
    if u' = u then (u, r) :: t else (u', r') :: set_user_state t u r

/-- `DELETE FROM user_states WHERE user_id = ?`
(`Database.clear_user_state`). -/
def clear_user_state (σ : StateStore) (u : Int) : StateStore :=
  σ.filter (fun p => !decide (p.1 = u))

/-- `StateManager.get_state`: the record's `state` entry, defaulting to
`States.IDLE` when the record or the key is missing. -/
def get_state (σ : StateStore) (u : Int) : Nat :=
  match get_user_state σ u with
  | some r => r.state?.getD States.IDLE
  | none => States.IDLE

/-- `StateManager.set_state`: read the record (or an empty object), overwrite
its `state` entry, write it back. -/
def set_state (σ : StateStore) (u : Int) (st : Nat) : StateStore :=
  let cur := (get_user_state σ u).getD ⟨none, none⟩
  set_user_state σ u { cur with state? := some st }

/-- `StateManager.get_data`: the record's `data` entry, defaulting to the
empty mapping when the record or the key is missing. -/
def get_data (σ : StateStore) (u : Int) : List (Str × Val) :=
  match get_user_state σ u with
  | some r => r.data?.getD []
  | none => []

/-- `StateManager.set_data`: read the record (or `{state: IDLE, data: {}}`),
materialise a missing `data` key as the empty mapping, store the key-value
pair, write the record back. -/
def set_data (σ : StateStore) (u : Int) (k : Str) (v : Val) : StateStore :=
  let cur := (get_user_state σ u).getD ⟨some States.IDLE, some []⟩
  set_user_state σ u { cur with data? := some (dset (cur.data?.getD []) k v) }

/-- `StateManager.clear_state` simply delegates to
`Database.clear_user_state`. -/
def clear_state (σ : StateStore) (u : Int) : StateStore :=
  clear_user_state σ u

/-- A row of the `users` table. -/
structure UserRow where
  user_id : Int
  username : Option Str
  first_name : Option Str
deriving DecidableEq

/-- The database: `users`, `banned_users`, `user_states` and `trains`
tables (`user_states` timestamps appear separately in the staleness model). -/
structure DB where
  users : List UserRow
  banned : List (Int × Str)
  user_states : StateStore
  trains : List Str
deriving DecidableEq

/-- `INSERT OR REPLACE INTO users` keyed by `user_id`
(`Database.add_user`). -/
def users_upsert : List UserRow → UserRow → List UserRow
  | [], r => [r]
  | r' :: t, r =>
    if r'.user_id = r.user_id then r :: t else r' :: users_upsert t r

/-- `Database.add_user`. -/
def add_user (db : DB) (u : Int) (un fn : Option Str) : DB :=
  { db with users := users_upsert db.users ⟨u, un, fn⟩ }

/-- `Database.is_banned`: a `banned_users` row exists for the id. -/
def is_banned (db : DB) (u : Int) : Bool :=
  (db.banned.find? (fun p => decide (p.1 = u))).isSome

/-- `INSERT OR REPLACE INTO banned_users` keyed by `user_id`. -/
def banned_upsert : List (Int × Str) → Int → Str → List (Int × Str)
  | [], u, reason => [(u, reason)]
  | (u', r') :: t, u, reason =>
    if u' = u then (u, reason) :: t else (u', r') :: banned_upsert t u reason

/-- `Database.ban_user`: unconditional upsert of the ban row. -/
def ban_user (db : DB) (u : Int) (reason : Str) : DB :=
  { db with banned := banned_upsert db.banned u reason }

/-- ASCII lower-casing, the folding SQLite's `COLLATE NOCASE` applies. -/
def asciiLower (c : Char) : Char :=
  if 'A' ≤ c && c ≤ 'Z' then Char.ofNat (c.toNat + 32) else c

/-- Case-insensitive ASCII string equality (`COLLATE NOCASE`). -/
def eqNoCase (a b : Str) : Bool :=
  decide (a.map asciiLower = b.map asciiLower)

/-- `Database.get_user_id_by_username`: first `users` row whose username
matches case-insensitively. -/
def get_user_id_by_username (db : DB) (username : Str) : Option Int :=
  (db.users.find? (fun r =>
    match r.username with
    | some s => eqNoCase s username
    | none => false)).map (·.user_id)

/-- The replies a handler can send, abstracting the interpolated message
texts of the source. -/
inductive Reply where
  | blocked
  | greeting
  | linePrompt
  | banHelp
  | banUserNotFound (username : Str)
  | banDone (uid : Int) (reason : Str)
  | banBadFormat
deriving DecidableEq

/-- `ReportBot._handle_start`: banned users get the blocked notice and
nothing else happens; otherwise the user row is upserted and the greeting is
sent. -/
def handle_start (db : DB) (u : Int) (un fn : Option Str) : DB × List Reply :=
  if is_banned db u then (db, [.blocked])
  else (add_user db u un fn, [.greeting])

/-- `ReportBot._start_report`: banned users get the blocked notice and
nothing else happens; otherwise the conversation record is cleared, the step
set to `LINE`, the line prompt sent and its message id remembered under
`last_msg`. -/
def start_report (db : DB) (u : Int) (msgId : Int) : DB × List Reply :=
  if is_banned db u then (db, [.blocked])
  else
    let σ := clear_state db.user_states u
    let σ := set_state σ u States.LINE
    let σ := set_data σ u ("last_msg".toList) (Val.n msgId)
    ({ db with user_states := σ }, [.linePrompt])

/-- `ReportBot._route_choice` (state effect): `"Пропустить"` stores the
sentinel `"-"` as the route and advances to `COMMENT`; `"Указать маршрут"`
advances to `ROUTE_MANUAL`; anything else only re-prompts.  Every branch
records the id of the message it sends under `last_msg`. -/
def route_choice (σ : StateStore) (u : Int) (text : Str) (msgId : Int) :
    StateStore :=
  let choice := pyStrip text
  if choice = ("Пропустить".toList) then
    let σ := set_data σ u ("route".toList) (Val.s ("-".toList))
    let σ := set_state σ u States.COMMENT
    set_data σ u ("last_msg".toList) (Val.n msgId)
  else if choice = ("Указать маршрут".toList) then
    let σ := set_state σ u States.ROUTE_MANUAL
    set_data σ u ("last_msg".toList) (Val.n msgId)
  else
    set_data σ u ("last_msg".toList) (Val.n msgId)

/-- The identifier dispatch of `admin/ban.BanManager._handle_ban`: a token
starting with `@` is a username lookup (rejected when the user was never
sighted); any other token is parsed with `int` and banned without consulting
the `users` table. -/
def ban_by_ident (db : DB) (ident : Str) (reason : Str) : DB × List Reply :=
  match ident with
  | '@' :: username =>
    match get_user_id_by_username db username with
    | none => (db, [.banUserNotFound username])
    | some uid => (ban_user db uid reason, [.banDone uid reason])
  | _ =>
    match pyInt ident with
    | none => (db, [.banBadFormat])
    | some uid => (ban_user db uid reason, [.banDone uid reason])

/-- `BanManager._handle_ban` after the admin gate: split the command text
into at most three tokens, demand an identifier, take the remainder as the
reason (default `"-"`), and dispatch on the identifier.  `admins` stands for
the static `config.ADMINS` set. -/
def handle_ban (admins : List Int) (db : DB) (adminId : Int) (text : Str) :
    DB × List Reply :=
  if adminId ∈ admins then
    match pySplitMax 2 text with
    | [] => (db, [.banHelp])
    | [_] => (db, [.banHelp])
    | _ :: ident :: rest => ban_by_ident db ident (rest.headD ("-".toList))
  else (db, [])

/-- The ban-record/user-record invariant of the spec: every `banned_users`
row references an existing `users` row. -/
def banInvariant (db : DB) : Bool :=
  db.banned.all (fun p => db.users.any (fun r => decide (r.user_id = p.1)))

/-- `line.startswith("/")`. -/
def startsWithSlash : Str → Bool
  | '/' :: _ => true
  | _ => false

/-- The line parsing of `admin/trains.TrainsManager._handle_edit`: strip the
whole text, split on newlines, strip each line, keep the non-empty lines not
starting with `/`. -/
def parse_trains_text (text : Str) : List Str :=
  ((pySplitNl (pyStrip text)).map pyStrip).filter
    (fun l => !l.isEmpty && !startsWithSlash l)

/-- The duplicate removal of `_handle_edit`: `seen` is the set of entries
already kept. -/
def dedupFirstAux (seen : List Str) : List Str → List Str
  | [] => []
  | t :: rest =>
    if t ∈ seen then dedupFirstAux seen rest
    else t :: dedupFirstAux (t :: seen) rest

/-- Duplicate removal keeping first occurrences (`seen = set()` initially). -/
def dedupFirst (ts : List Str) : List Str :=
  dedupFirstAux [] ts

/-- The spec's wording of duplicate removal, for comparison with the
source's `dedupFirst`: keep each entry's first occurrence, in order of first
occurrence. -/
def firstOccList : List Str → List Str
  | [] => []
  | x :: xs => x :: firstOccList (xs.filter (fun y => decide (y ≠ x)))
termination_by ts => ts.length
decreasing_by
  simp only [List.length_cons]
  exact Nat.lt_succ_of_le (List.length_filter_le _ _)

/-- `Database.set_trains`: `DELETE FROM trains` then `INSERT OR IGNORE` each
name in order into the `UNIQUE` column. -/
def set_trains (db : DB) (ts : List Str) : DB :=
  { db with trains := ts.foldl (fun acc t => if t ∈ acc then acc else acc ++ [t]) [] }

/-- Lexicographic codepoint comparison; SQLite's default text ordering on
UTF-8 is byte-wise, which coincides with codepoint order. -/
def strLt : Str → Str → Bool
  | [], [] => false
  | [], _ :: _ => true
  | _ :: _, [] => false
  | a :: as, b :: bs => if a < b then true else if b < a then false else strLt as bs

/-- Insert into a sorted list (used to model `ORDER BY name`). -/
def insertSorted (x : Str) : List Str → List Str
  | [] => [x]
  | y :: ys => if !strLt y x then x :: y :: ys else y :: insertSorted x ys

/-- `Database.get_trains`: `SELECT name FROM trains ORDER BY name`. -/
def get_trains (db : DB) : List Str :=
  db.trains.foldr insertSorted []

/-- `TrainsManager._handle_edit` after the admin gate: parse the submitted
text, reject an empty list, otherwise deduplicate, store, and reply with the
added count and the removed-duplicate count. -/
def handle_edit (db : DB) (text : Str) : DB × Option (Nat × Nat) :=
  let trains := parse_trains_text text
  if trains = [] then (db, none)
  else
    let uniq := dedupFirst trains
    (set_trains db uniq, some (uniq.length, trains.length - uniq.length))

/-- A `user_states` row together with its `updated_at` timestamp (seconds,
the granularity of SQLite's `datetime`). -/
structure StateRow where
  user_id : Int
  state_data : StateRec
  updated_at : Int
deriving DecidableEq

/-- `Database.cleanup_old_states`:
`DELETE FROM user_states WHERE datetime(updated_at) < datetime('now', '-m minutes')`,
i.e. a row survives exactly when `now - 60*m ≤ updated_at`. -/
def cleanup_old_states (tbl : List StateRow) (now : Int) (minutes : Int) :
    List StateRow :=
  tbl.filter (fun r => decide (now - minutes * 60 ≤ r.updated_at))

/-- `utils.RateLimiter`: instants and durations are integer seconds,
standing in for the source's floating-point `time.time()` clock. -/
structure RateLimiter where
  messages_per_period : Nat
  period_seconds : Int
  message_count : Nat
  period_start : Int
deriving DecidableEq

/-- `RateLimiter.wait_if_needed` at current instant `now`: count the message;
at or past the limit, sleep out the remainder of the window (when any) and
open a fresh window.  Returns the new limiter, the instant after any sleep,
and whether a sleep happened. -/
def wait_if_needed (rl : RateLimiter) (now : Int) : RateLimiter × Int × Bool :=
  let count := rl.message_count + 1
  if rl.messages_per_period ≤ count then
    let elapsed := now - rl.period_start
    if elapsed < rl.period_seconds then
      let now2 := now + (rl.period_seconds - elapsed)
      (⟨rl.messages_per_period, rl.period_seconds, 0, now2⟩, now2, true)
    else
      (⟨rl.messages_per_period, rl.period_seconds, 0, now⟩, now, false)
  else
    ({ rl with message_count := count }, now, false)

/-- Outcome of one `GongManager._execute_gong` dispatch loop. -/
structure GongResult where
  succeeded : Nat
  failed : Nat
  attempts : List Int
  sleeps : Nat
deriving DecidableEq

/-- The dispatch loop of `GongManager._execute_gong`: for each recipient in
order, call `wait_if_needed`, then attempt the send; a failure (`ok u =
false`, the oracle for `bot.send_message` raising) is counted and the loop
continues.  Sends are modelled as instantaneous, so only the limiter's
sleeps advance the clock. -/
def gongRun (ok : Int → Bool) : List Int → RateLimiter → Int → GongResult
  | [], _, _ => ⟨0, 0, [], 0⟩
  | u :: rest, rl, now =>
    let step := wait_if_needed rl now
    let r := gongRun ok rest step.1 step.2.1
    if ok u then
      ⟨r.succeeded + 1, r.failed, u :: r.attempts,
        (if step.2.2 then 1 else 0) + r.sleeps⟩
    else
      ⟨r.succeeded, r.failed + 1, u :: r.attempts,
        (if step.2.2 then 1 else 0) + r.sleeps⟩

/-- One broadcast run as `_execute_gong` performs it: a fresh
`RateLimiter(K, W)` (so `message_count = 0` and `period_start = now`) driving
the dispatch loop over the recipient list. -/
def execute_gong (ok : Int → Bool) (recipients : List Int) (K : Nat) (W : Int)
    (t0 : Int) : GongResult :=
  gongRun ok recipients ⟨K, W, 0, t0⟩ t0

deriving instance DecidableEq for Except

/-- Outcome of `utils.retry_on_error`: the returned/raised result, the number
of attempts made, and the sleeps performed (seconds). -/
structure RetryResult (E A : Type) where
  outcome : Except (Option E) A
  attemptsMade : Nat
  sleeps : List Int
deriving DecidableEq

/-- The loop of `utils.retry_on_error`'s wrapper, indexed by the number of
loop iterations still to run (`remaining = max_retries - attempt`) with
`last` the last exception seen (`none` models Python's initial
`last_exception = None`): run the wrapped call; on success return; on an
exception either re-raise (final iteration, `attempt == max_retries - 1`) or
sleep `delay * 2 ** attempt` and continue. -/
def retryGo (op : Nat → Except E A) (delay : Int) :
    Nat → Nat → Option E → RetryResult E A
  | 0, attempt, last => ⟨.error last, attempt, []⟩
  | remaining + 1, attempt, _last =>
    match op attempt with
    | .ok a => ⟨.ok a, attempt + 1, []⟩
    | .error e =>
      match remaining with
      | 0 => ⟨.error (some e), attempt + 1, []⟩
      | r + 1 =>
        let rest := retryGo op delay (r + 1) (attempt + 1) (some e)
        ⟨rest.outcome, rest.attemptsMade, delay * 2 ^ attempt :: rest.sleeps⟩

/-- `utils.retry_on_error(max_retries, delay)` applied to a fallible call
`op` (indexed by attempt number). -/
def retry_on_error (maxRetries : Nat) (delay : Int) (op : Nat → Except E A) :
    RetryResult E A :=
  retryGo op delay maxRetries 0 none

/-- The body of `ReportBot._publish`: the whole body sits inside
`try ... except Exception: return False`, so a raising channel send is
swallowed and surfaces as the return value `False`, never as an
exception. -/
def publish_once (send : Except Unit Unit) : Except Empty Bool :=
  match send with
  | .ok _ => .ok true
  | .error _ => .ok false

/-- `_publish` as deployed: the decorator
`@retry_on_error(max_retries=3, delay=1.0)` wrapped around `publish_once`,
with `sends n` the oracle for the channel send of attempt `n`. -/
def publish_wrapped (sends : Nat → Except Unit Unit) : RetryResult Empty Bool :=
  retry_on_error 3 1 (fun n => publish_once (sends n))

/-- A transient delivery failure: the channel send raises on the first two
attempts and succeeds from the third on. -/
def transientSends : Nat → Except Unit Unit :=
  fun n => if n < 2 then .error () else .ok ()

/-- The two buttons `_confirm_action` dispatches on. -/
inductive ConfirmData where
  | publish
  | cancel
deriving DecidableEq

/-- The state effect of `ReportBot._confirm_action`: on `confirm_publish`
run `_publish` (its boolean outcome is the oracle `outcome`) and report
success or failure; on `confirm_cancel` report the cancellation; in every
case delete the confirmation message and clear the user's conversation
state.  Returns the new store and whether a publish was reported
successful. -/
def confirm_action (σ : StateStore) (u : Int) (d : ConfirmData)
    (outcome : Bool) : StateStore × Bool :=
  match d with
  | .publish => (clear_state σ u, outcome)
  | .cancel => (clear_state σ u, false)

theorem get_user_state_set (σ : StateStore) (u : Int) (r : StateRec) :
    get_user_state (set_user_state σ u r) u = some r := by
  induction σ with
  | nil => simp [set_user_state, get_user_state]
  | cons p t ih =>
    obtain ⟨u', r'⟩ := p
    by_cases h : u' = u
    · subst h
      simp [set_user_state, get_user_state]
    · simpa [set_user_state, get_user_state, h] using ih

theorem set_user_state_idem (σ : StateStore) (u : Int) (a b : StateRec) :
    set_user_state (set_user_state σ u a) u b = set_user_state σ u b := by
  induction σ with
  | nil => simp [set_user_state]
  | cons p t ih =>
    obtain ⟨u', r'⟩ := p
    by_cases h : u' = u
    · subst h
      simp [set_user_state]
    · simp [set_user_state, h, ih]

/-- C3: `set_state` is an idempotent overwrite that preserves the accumulated
data mapping — running it twice with the same step leaves the whole store
exactly as one run does, and a single run never changes `get_data`, whether
or not the user already has a record. -/
theorem claim_C3_set_state_idempotent (σ : StateStore) (u : Int) (st : Nat) :
    set_state (set_state σ u st) u st = set_state σ u st ∧
    get_data (set_state σ u st) u = get_data σ u := by
  constructor
  · simp only [set_state, get_user_state_set, Option.getD_some]
    exact set_user_state_idem σ u _ _
  · simp only [get_data, set_state, get_user_state_set]
    cases h : get_user_state σ u <;> simp [h]

/-- C10: `StateManager` reads are total on partially formed records: for a
user with no record, `set_state` writes a record that has a `state` entry but
no `data` entry, after which `get_data` is the empty mapping and `get_state`
the value just set; and on any record missing its `data` (resp. `state`)
entry, `get_data` still returns the empty mapping (resp. `get_state` the idle
default). -/
theorem claim_C10_getters_total (σ : StateStore) (u : Int) (st : Nat)
    (h : get_user_state σ u = none) :
    get_user_state (set_state σ u st) u = some ⟨some st, none⟩ ∧
    get_data (set_state σ u st) u = [] ∧
    get_state (set_state σ u st) u = st ∧
    (∀ (σ' : StateStore) (u' : Int) (d : Option (List (Str × Val))),
      get_user_state σ' u' = some ⟨none, d⟩ → get_state σ' u' = States.IDLE) ∧
    (∀ (σ' : StateStore) (u' : Int) (s : Option Nat),
      get_user_state σ' u' = some ⟨s, none⟩ → get_data σ' u' = []) := by
  refine ⟨?_, ?_, ?_, ?_, ?_⟩
  · simp [set_state, h, get_user_state_set]
  · simp [get_data, set_state, h, get_user_state_set]
  · simp [get_state, set_state, h, get_user_state_set]
  · intro σ' u' d h'
    simp [get_state, h']
  · intro σ' u' s h'
    simp [get_data, h']

theorem claim_C10_getters_total_witness :
    get_user_state (set_state [] 7 3) 7 = some ⟨some 3, none⟩ ∧
    get_data (set_state [] 7 3) 7 = [] ∧
    get_state (set_state [] 7 3) 7 = 3 ∧
    (∀ (σ' : StateStore) (u' : Int) (d : Option (List (Str × Val))),
      get_user_state σ' u' = some ⟨none, d⟩ → get_state σ' u' = States.IDLE) ∧
    (∀ (σ' : StateStore) (u' : Int) (s : Option Nat),
      get_user_state σ' u' = some ⟨s, none⟩ → get_data σ' u' = []) :=
  claim_C10_getters_total [] 7 3 (by decide)

theorem dget_dset_self (d : List (Str × Val)) (k : Str) (v : Val) :
    dget (dset d k v) k = some v := by
  induction d with
  | nil => simp [dset, dget]
  | cons p t ih =>
    obtain ⟨k', v'⟩ := p
    by_cases h : k' = k
    · subst h
      simp [dset, dget]
    · simpa [dset, dget, h] using ih

theorem dget_dset_ne (d : List (Str × Val)) (k k' : Str) (v : Val)
    (h : k' ≠ k) : dget (dset d k' v) k = dget d k := by
  induction d with
  | nil => simp [dset, dget, h]
  | cons p t ih =>
    obtain ⟨k'', v''⟩ := p
    by_cases h2 : k'' = k'
    · subst h2
      simp [dset, dget, h]
    · by_cases h3 : k'' = k
      · subst h3
        simp [dset, dget, h2]
      · simpa [dset, dget, h2, h3] using ih

theorem get_data_set_state (σ : StateStore) (u : Int) (st : Nat) :
    get_data (set_state σ u st) u = get_data σ u := by
  simp only [get_data, set_state, get_user_state_set]
  cases h : get_user_state σ u <;> simp [h]

theorem get_data_set_data (σ : StateStore) (u : Int) (k : Str) (v : Val) :
    get_data (set_data σ u k v) u = dset (get_data σ u) k v := by
  simp only [get_data, set_data, get_user_state_set]
  cases h : get_user_state σ u <;> simp [h]

/-- C4 counterexample: `"²²²"` (three Latin-1 superscript digits) passes
`validate_route_number`, yet none of its characters is an ASCII digit —
Python's `str.isdigit` accepts non-ASCII Unicode digits, so acceptance is
not equivalent to being exactly 3 ASCII digits. -/
theorem claim_C4_counterexample :
    (validate_route_number ("²²²".toList)).1 = true ∧
    ¬ (∀ c ∈ ("²²²".toList), '0' ≤ c ∧ c ≤ '9') := by decide

/-- C4 (amended): route acceptance checks Python's `str.isdigit` and length
3, not ASCII-ness: `"123"` is accepted; `"12a"`, `"12"`, `"1234"` are
rejected with their specific messages; every accepted string has length 3
and consists of Python digits; every 3-character ASCII-digit string is
accepted (but, per the counterexample, non-ASCII digit strings are accepted
too); and skipping stores the literal sentinel `"-"` as the route. -/
theorem claim_C4_route_validation :
    validate_route_number ("123".toList) = (true, none) ∧
    validate_route_number ("12a".toList)
      = (false, some ("❗️ Маршрут должен содержать только цифры".toList)) ∧
    validate_route_number ("12".toList)
      = (false, some ("❗️ Маршрут должен быть трёхзначным".toList)) ∧
    validate_route_number ("1234".toList)
      = (false, some ("❗️ Маршрут должен быть трёхзначным".toList)) ∧
    (∀ r : Str, (validate_route_number r).1 = true →
      r.length = 3 ∧ ∀ c ∈ r, pyCharIsdigit c) ∧
    (∀ r : Str, r.length = 3 → (∀ c ∈ r, c.isDigit) →
      (validate_route_number r).1 = true) ∧
    (∀ (σ : StateStore) (u m : Int),
      dget (get_data (route_choice σ u ("Пропустить".toList) m) u)
        ("route".toList) = some (Val.s ("-".toList))) := by
  refine ⟨by decide, by decide, by decide, by decide, ?_, ?_, ?_⟩
  · intro r h
    by_cases hd : pyIsdigit r
    · by_cases hl : r.length = 3
      · refine ⟨hl, fun c hc => ?_⟩
        have := (Bool.and_eq_true _ _).mp hd
        exact List.all_eq_true.mp this.2 c hc
      · simp [validate_route_number, hd, hl] at h
    · simp [validate_route_number, hd] at h
  · intro r hl hd
    have hne : ¬ r.isEmpty := by
      cases r with
      | nil => simp at hl
      | cons a t => simp
    have hall : r.all pyCharIsdigit = true :=
      List.all_eq_true.mpr fun c hc => by simp [pyCharIsdigit, hd c hc]
    simp [validate_route_number, pyIsdigit, hne, hall, hl]
  · intro σ u m
    have hskip : pyStrip ("Пропустить".toList) = ("Пропустить".toList) := by decide
    simp only [route_choice, hskip, if_pos]
    rw [get_data_set_data, dget_dset_ne _ _ _ _ (by decide),
      get_data_set_state, get_data_set_data, dget_dset_self]

theorem claim_C4_route_validation_witness :
    (("456".toList).length = 3 ∧ ∀ c ∈ ("456".toList), Char.isDigit c) ∧
    (validate_route_number ("456".toList)).1 = true ∧
    dget (get_data (route_choice [] 7 ("Пропустить".toList) 9) 7)
      ("route".toList) = some (Val.s ("-".toList)) :=
  ⟨by decide,
    claim_C4_route_validation.2.2.2.2.2.1 ("456".toList) (by decide) (by decide),
    claim_C4_route_validation.2.2.2.2.2.2 [] 7 9⟩

theorem isWs_of_isDigit {c : Char} (h : c.isDigit = true) : isWs c = false := by
  by_contra hw
  simp only [Bool.not_eq_false, isWs, Bool.or_eq_true, decide_eq_true_eq] at hw
  rcases hw with ((((rfl | rfl) | rfl) | rfl) | rfl) | rfl <;>
    exact absurd h (by decide)

theorem pySplitWsAux_append (tok : Str) (h : ∀ c ∈ tok, isWs c = false) :
    ∀ acc cs : Str,
      pySplitWsAux acc (tok ++ cs) = pySplitWsAux (tok.reverse ++ acc) cs := by
  induction tok with
  | nil => intro acc cs; simp
  | cons c tok' ih =>
    intro acc cs
    have hc : isWs c = false := h c (List.mem_cons_self _ _)
    have h' : ∀ d ∈ tok', isWs d = false := fun d hd => h d (List.mem_cons_of_mem _ hd)
    simp only [List.cons_append, pySplitWsAux, hc, Bool.false_eq_true, if_false,
      List.append_eq]
    rw [ih h' (c :: acc) cs]
    simp

theorem pySplitWs_token_space (tok rest : Str) (h1 : tok ≠ [])
    (h : ∀ c ∈ tok, isWs c = false) :
    pySplitWs (tok ++ ' ' :: rest) = tok :: pySplitWs rest := by
  unfold pySplitWs
  rw [pySplitWsAux_append tok h [] (' ' :: rest), List.append_nil]
  have e1 : pySplitWsAux tok.reverse (' ' :: rest)
      = if isWs ' ' then
          if tok.reverse = [] then pySplitWsAux [] rest
          else tok.reverse.reverse :: pySplitWsAux [] rest
        else pySplitWsAux (' ' :: tok.reverse) rest := rfl
  rw [e1, if_pos (show isWs ' ' = true by decide),
    if_neg (fun e => h1 (List.reverse_eq_nil_iff.mp e)), List.reverse_reverse]

theorem pyDigitsCore_digits (cs : Str) :
    ∀ acc : Nat, (∀ c ∈ cs, c.isDigit = true) →
      pyDigitsCore acc cs
        = some (cs.foldl (fun a c => 10 * a + (c.toNat - 48)) acc) := by
  induction cs with
  | nil => intro acc _; simp [pyDigitsCore]
  | cons c cs' ih =>
    intro acc h
    have hc : c.isDigit = true := h c (List.mem_cons_self _ _)
    have h' : ∀ d ∈ cs', d.isDigit = true := fun d hd => h d (List.mem_cons_of_mem _ hd)
    have e1 : pyDigitsCore acc (c :: cs')
        = pyDigitsCore (10 * acc + (c.toNat - 48)) cs' := by
      conv_lhs => unfold pyDigitsCore
      rw [if_pos hc]
    rw [e1, List.foldl_cons]
    exact ih _ h'

theorem pyInt_digits (tok : Str) (h1 : tok ≠ [])
    (h2 : ∀ c ∈ tok, c.isDigit = true) :
    pyInt tok = some (Int.ofNat (digitsVal tok)) := by
  cases tok with
  | nil => exact absurd rfl h1
  | cons c cs =>
    have hc : c.isDigit = true := h2 c (List.mem_cons_self _ _)
    have h' : ∀ d ∈ cs, d.isDigit = true := fun d hd => h2 d (List.mem_cons_of_mem _ hd)
    have hplus : c ≠ '+' := by intro e; subst e; exact absurd hc (by decide)
    have hminus : c ≠ '-' := by intro e; subst e; exact absurd hc (by decide)
    simp only [pyInt, hplus, hminus, if_false, pyDigitsStart, hc, if_true,
      digitsVal, List.foldl_cons]
    rw [pyDigitsCore_digits cs _ h']
    simp

/-- C5: time-label parsing is total with a fixed zero fallback — `"Сейчас"`
parses to 0 elapsed minutes, a label whose first whitespace-separated token
is a digit string parses to that token's value, a label whose first token
`int` cannot parse (or with no token at all) parses to 0, and the stored
wall-clock value is `now` minus the parsed minutes, rendered as
hour:minute. -/
theorem claim_C5_time_parsing :
    parse_time_ago ("Сейчас".toList) = 0 ∧
    (∀ tok rest : Str, tok ≠ [] → (∀ c ∈ tok, c.isDigit = true) →
      parse_time_ago (tok ++ ' ' :: rest) = Int.ofNat (digitsVal tok)) ∧
    (∀ s : Str, pyInt ((pySplitWs s).headD []) = none → parse_time_ago s = 0) ∧
    (∀ (label : Str) (now : Int),
      select_time_stored label now = formatHM (now - parse_time_ago label)) ∧
    select_time_stored ("Сейчас".toList) 750 = (12, 30) ∧
    select_time_stored ("15 минут назад".toList) 750 = (12, 15) := by
  refine ⟨by decide, ?_, ?_, fun _ _ => rfl, by decide, by decide⟩
  · intro tok rest h1 h2
    have hne : tok ++ ' ' :: rest ≠ ("Сейчас".toList) := by
      intro he
      have hm : ' ' ∈ ("Сейчас".toList) :=
        he ▸ List.mem_append.mpr (Or.inr (List.mem_cons_self _ _))
      exact absurd hm (by decide)
    have hw : ∀ c ∈ tok, isWs c = false := fun c hc => isWs_of_isDigit (h2 c hc)
    rw [parse_time_ago, if_neg hne, pySplitWs_token_space tok rest h1 hw]
    simp [pyInt_digits tok h1 h2]
  · intro s h
    rw [parse_time_ago]
    by_cases hs : s = ("Сейчас".toList)
    · rw [if_pos hs]
    · rw [if_neg hs]
      cases hsp : pySplitWs s with
      | nil => rfl
      | cons t ts =>
        rw [hsp] at h
        simp only [List.headD_cons] at h
        simp [h]

theorem claim_C5_time_parsing_witness :
    parse_time_ago (("15".toList) ++ ' ' :: ("минут назад".toList))
      = Int.ofNat (digitsVal ("15".toList)) ∧
    parse_time_ago ("примерно час".toList) = 0 :=
  ⟨claim_C5_time_parsing.2.1 ("15".toList) ("минут назад".toList)
      (by decide) (by decide),
    claim_C5_time_parsing.2.2.1 ("примерно час".toList) (by decide)⟩

/-- C6: for a user with a ban record, the wizard entry and the initial
greeting are both rejected with the blocked notice, and the database —
conversation states included — is returned entirely unchanged. -/
theorem claim_C6_ban_enforcement (db : DB) (u : Int) (un fn : Option Str)
    (msgId : Int) (h : is_banned db u = true) :
    start_report db u msgId = (db, [.blocked]) ∧
    handle_start db u un fn = (db, [.blocked]) := by
  constructor
  · simp [start_report, h]
  · simp [handle_start, h]

theorem claim_C6_ban_enforcement_witness :
    start_report ⟨[], [(5, ("-".toList))], [], []⟩ 5 1
      = (⟨[], [(5, ("-".toList))], [], []⟩, [.blocked]) ∧
    handle_start ⟨[], [(5, ("-".toList))], [], []⟩ 5 none none
      = (⟨[], [(5, ("-".toList))], [], []⟩, [.blocked]) :=
  claim_C6_ban_enforcement ⟨[], [(5, ("-".toList))], [], []⟩ 5 none none 1
    (by decide)

/-- C9: one sweep with timeout `minutes` at instant `now` deletes a record
exactly when its `updated_at` is strictly older than the cutoff, retains
every other record unchanged, and never reorders or rewrites surviving
rows. -/
theorem claim_C9_staleness_sweep (tbl : List StateRow) (now minutes : Int)
    (r : StateRow) (h : r ∈ tbl) :
    (r.updated_at < now - minutes * 60 →
      r ∉ cleanup_old_states tbl now minutes) ∧
    (now - minutes * 60 ≤ r.updated_at →
      r ∈ cleanup_old_states tbl now minutes) ∧
    List.Sublist (cleanup_old_states tbl now minutes) tbl := by
  refine ⟨?_, ?_, List.filter_sublist _⟩
  · intro hold hmem
    have h2 := (List.mem_filter.mp hmem).2
    simp only [decide_eq_true_eq] at h2
    omega
  · intro hin
    exact List.mem_filter.mpr ⟨h, by simpa using hin⟩

theorem claim_C9_staleness_sweep_witness :
    (⟨1, ⟨none, none⟩, 0⟩ : StateRow)
      ∉ cleanup_old_states
          [⟨1, ⟨none, none⟩, 0⟩, ⟨2, ⟨none, none⟩, 100⟩] 1900 30 ∧
    (⟨2, ⟨none, none⟩, 100⟩ : StateRow)
      ∈ cleanup_old_states
          [⟨1, ⟨none, none⟩, 0⟩, ⟨2, ⟨none, none⟩, 100⟩] 1900 30 :=
  ⟨(claim_C9_staleness_sweep
        [⟨1, ⟨none, none⟩, 0⟩, ⟨2, ⟨none, none⟩, 100⟩] 1900 30
        ⟨1, ⟨none, none⟩, 0⟩ (by decide)).1 (by decide),
    (claim_C9_staleness_sweep
        [⟨1, ⟨none, none⟩, 0⟩, ⟨2, ⟨none, none⟩, 100⟩] 1900 30
        ⟨2, ⟨none, none⟩, 100⟩ (by decide)).2.1 (by decide)⟩

theorem mem_dedupFirstAux (ts : List Str) :
    ∀ (seen : List Str) (x : Str),
      x ∈ dedupFirstAux seen ts ↔ x ∈ ts ∧ x ∉ seen := by
  induction ts with
  | nil => intro seen x; simp [dedupFirstAux]
  | cons t rest ih =>
    intro seen x
    by_cases h : t ∈ seen
    · simp only [dedupFirstAux, if_pos h, ih, List.mem_cons]
      constructor
      · exact fun h1 => ⟨Or.inr h1.1, h1.2⟩
      · rintro ⟨h1 | h1, h2⟩
        · exact absurd (h1 ▸ h) h2
        · exact ⟨h1, h2⟩
    · simp only [dedupFirstAux, if_neg h, List.mem_cons, ih]
      by_cases hx : x = t
      · subst hx
        simp [h]
      · simp [hx]

theorem nodup_dedupFirstAux (ts : List Str) :
    ∀ seen : List Str, (dedupFirstAux seen ts).Nodup := by
  induction ts with
  | nil => intro seen; simp [dedupFirstAux]
  | cons t rest ih =>
    intro seen
    by_cases h : t ∈ seen
    · simpa [dedupFirstAux, h] using ih seen
    · simp only [dedupFirstAux, if_neg h, List.nodup_cons]
      refine ⟨fun hm => ?_, ih _⟩
      exact ((mem_dedupFirstAux rest _ t).mp hm).2 (List.mem_cons_self _ _)

theorem dedupFirstAux_eq_firstOccList (ts : List Str) :
    ∀ seen : List Str,
      dedupFirstAux seen ts
        = firstOccList (ts.filter (fun y => !decide (y ∈ seen))) := by
  induction ts with
  | nil => intro seen; simp [dedupFirstAux, firstOccList]
  | cons t rest ih =>
    intro seen
    by_cases h : t ∈ seen
    · rw [show dedupFirstAux seen (t :: rest) = dedupFirstAux seen rest from
        by simp [dedupFirstAux, h]]
      rw [show (t :: rest).filter (fun y => !decide (y ∈ seen))
          = rest.filter (fun y => !decide (y ∈ seen)) from
        by simp [List.filter_cons, h]]
      exact ih seen
    · rw [show dedupFirstAux seen (t :: rest)
          = t :: dedupFirstAux (t :: seen) rest from
        by simp [dedupFirstAux, h]]
      rw [show (t :: rest).filter (fun y => !decide (y ∈ seen))
          = t :: rest.filter (fun y => !decide (y ∈ seen)) from
        by simp [List.filter_cons, h]]
      rw [show firstOccList (t :: rest.filter (fun y => !decide (y ∈ seen)))
          = t :: firstOccList ((rest.filter
              (fun y => !decide (y ∈ seen))).filter
                (fun y => decide (y ≠ t))) from
        by simp [firstOccList]]
      rw [ih (t :: seen), List.filter_filter]
      have hf : List.filter (fun y => !decide (y ∈ t :: seen)) rest
          = List.filter (fun a => decide (a ≠ t) && !decide (a ∈ seen)) rest := by
        apply List.filter_congr
        intro y _
        by_cases hy : y = t <;> simp [hy, List.mem_cons]
      rw [hf]

theorem dedupFirst_eq_firstOccList (ts : List Str) :
    dedupFirst ts = firstOccList ts := by
  rw [dedupFirst, dedupFirstAux_eq_firstOccList ts []]
  congr 1
  simp

theorem firstOccList_length :
    ∀ (n : Nat) (ts : List Str), ts.length ≤ n →
      (firstOccList ts).length = ts.toFinset.card := by
  intro n
  induction n with
  | zero =>
    intro ts h
    have he : ts = [] := List.length_eq_zero.mp (Nat.le_zero.mp h)
    subst he
    simp [firstOccList]
  | succ n ih =>
    intro ts h
    cases ts with
    | nil => simp [firstOccList]
    | cons t rest =>
      rw [show firstOccList (t :: rest)
          = t :: firstOccList (rest.filter (fun y => decide (y ≠ t))) from
        by simp [firstOccList]]
      rw [List.length_cons,
        ih _ (le_trans (List.length_filter_le _ _)
          (Nat.le_of_succ_le_succ h))]
      have he : (rest.filter (fun y => decide (y ≠ t))).toFinset
          = rest.toFinset.erase t := by
        ext x
        simp [List.mem_filter, Finset.mem_erase, and_comm]
      have h3 : insert t rest.toFinset = insert t (rest.toFinset.erase t) := by
        ext x
        by_cases hx : x = t <;> simp [hx]
      rw [he, List.toFinset_cons, h3,
        Finset.card_insert_of_not_mem (Finset.not_mem_erase _ _)]

/-- C7: a reference-list edit drops duplicates keeping first occurrences:
the dedup pass equals the spec's first-occurrence list, is duplicate-free,
and keeps exactly one entry per distinct input entry, so the reported
duplicate count `len(trains) - len(unique_trains)` is the input length minus
the number of distinct entries; on the concrete submission `"A\nB\nA"` the
stored table and its `ORDER BY name` read-back are `["A", "B"]` and the
reported counts are 2 added, 1 duplicate removed. -/
theorem claim_C7_trains_dedup :
    handle_edit ⟨[], [], [], []⟩ ("A\nB\nA".toList)
      = (⟨[], [], [], [("A".toList), ("B".toList)]⟩, some (2, 1)) ∧
    get_trains (handle_edit ⟨[], [], [], []⟩ ("A\nB\nA".toList)).1
      = [("A".toList), ("B".toList)] ∧
    (∀ ts : List Str, dedupFirst ts = firstOccList ts) ∧
    (∀ ts : List Str, (dedupFirst ts).Nodup) ∧
    (∀ ts : List Str, (dedupFirst ts).length = ts.toFinset.card) := by
  refine ⟨by decide, by decide, dedupFirst_eq_firstOccList, ?_, ?_⟩
  · intro ts
    exact nodup_dedupFirstAux ts []
  · intro ts
    rw [dedupFirst_eq_firstOccList]
    exact firstOccList_length ts.length ts le_rfl

theorem mem_banned_upsert (l : List (Int × Str)) (u : Int) (reason : Str) :
    ∀ p : Int × Str, p ∈ banned_upsert l u reason → p ∈ l ∨ p = (u, reason) := by
  induction l with
  | nil =>
    intro p h
    simp [banned_upsert] at h
    exact Or.inr h
  | cons q t ih =>
    intro p h
    obtain ⟨u', r'⟩ := q
    by_cases hu : u' = u
    · simp only [banned_upsert, if_pos hu, List.mem_cons] at h
      rcases h with h1 | h1
      · exact Or.inr h1
      · exact Or.inl (List.mem_cons_of_mem _ h1)
    · simp only [banned_upsert, if_neg hu, List.mem_cons] at h
      rcases h with h1 | h1
      · exact Or.inl (h1 ▸ List.mem_cons_self _ _)
      · rcases ih p h1 with h2 | h2
        · exact Or.inl (List.mem_cons_of_mem _ h2)
        · exact Or.inr h2

theorem banInvariant_ban_user (db : DB) (uid : Int) (reason : Str)
    (hinv : banInvariant db = true)
    (hu : db.users.any (fun r => decide (r.user_id = uid)) = true) :
    banInvariant (ban_user db uid reason) = true := by
  simp only [banInvariant, List.all_eq_true] at hinv ⊢
  intro p hp
  rcases mem_banned_upsert _ _ _ p hp with h | h
  · exact hinv p h
  · subst h
    simpa using hu

theorem get_user_id_by_username_any (db : DB) (un : Str) (uid : Int)
    (h : get_user_id_by_username db un = some uid) :
    db.users.any (fun r => decide (r.user_id = uid)) = true := by
  unfold get_user_id_by_username at h
  rcases hfind : db.users.find? (fun r =>
      match r.username with
      | some s => eqNoCase s un
      | none => false) with _ | r
  · rw [hfind] at h
    simp at h
  · rw [hfind] at h
    simp only [Option.map_some'] at h
    have hm := List.mem_of_find?_eq_some hfind
    have he : r.user_id = uid := Option.some.inj h
    exact List.any_eq_true.mpr ⟨r, hm, by simp [he]⟩

theorem banInvariant_ban_by_username (db : DB) (uname reason : Str)
    (hinv : banInvariant db = true) :
    banInvariant (ban_by_ident db ('@' :: uname) reason).1 = true := by
  rcases hl : get_user_id_by_username db uname with _ | uid
  · simp only [ban_by_ident, hl]
    exact hinv
  · simp only [ban_by_ident, hl]
    exact banInvariant_ban_user db uid reason hinv
      (get_user_id_by_username_any db uname uid hl)

/-- C8 counterexample: on an empty store (where the invariant holds) an
admin's `/ban 42` inserts a ban record although user 42 was never sighted:
the id-based ban path performs no users-table check, so the store reaches a
state with a ban record and no matching user record. -/
theorem claim_C8_counterexample :
    banInvariant ⟨[], [], [], []⟩ = true ∧
    (handle_ban [1] ⟨[], [], [], []⟩ 1 ("/ban 42".toList)).1.banned
      = [(42, ("-".toList))] ∧
    banInvariant (handle_ban [1] ⟨[], [], [], []⟩ 1 ("/ban 42".toList)).1
      = false := by decide

/-- C8 (amended): only the username form of `/ban` requires a prior
sighting — when the identifier token starts with `@`, the handler either
rejects an unknown username or bans a user id found in the `users` table, so
the ban/user invariant is preserved; the numeric-id form inserts the ban
record unconditionally and can break the invariant (see the
counterexample). -/
theorem claim_C8_ban_requires_user (admins : List Int) (db : DB) (a : Int)
    (text : Str) (uname : Str) (hinv : banInvariant db = true)
    (hid : (pySplitMax 2 text).getD 1 [] = '@' :: uname) :
    banInvariant (handle_ban admins db a text).1 = true := by
  unfold handle_ban
  by_cases ha : a ∈ admins
  · rw [if_pos ha]
    cases hargs : pySplitMax 2 text with
    | nil => exact hinv
    | cons c1 t =>
      cases t with
      | nil => exact hinv
      | cons ident rest =>
        rw [hargs] at hid
        have hident : ident = '@' :: uname := by simpa [List.getD] using hid
        subst hident
        show banInvariant
          (ban_by_ident db ('@' :: uname) (rest.headD ("-".toList))).1 = true
        exact banInvariant_ban_by_username db uname _ hinv
  · rw [if_neg ha]
    exact hinv

theorem claim_C8_ban_requires_user_witness :
    banInvariant
      (handle_ban [1] ⟨[⟨42, some ("bob".toList), none⟩], [], [], []⟩ 1
        ("/ban @Bob spam".toList)).1 = true :=
  claim_C8_ban_requires_user [1] ⟨[⟨42, some ("bob".toList), none⟩], [], [], []⟩
    1 ("/ban @Bob spam".toList) ("Bob".toList) (by decide) (by decide)

theorem gongRun_attempts (ok : Int → Bool) (users : List Int) :
    ∀ (rl : RateLimiter) (now : Int),
      (gongRun ok users rl now).attempts = users := by
  induction users with
  | nil => intro rl now; rfl
  | cons u rest ih =>
    intro rl now
    simp only [gongRun]
    by_cases h : ok u <;> simp [h, ih]

theorem gongRun_succeeded (ok : Int → Bool) (users : List Int) :
    ∀ (rl : RateLimiter) (now : Int),
      (gongRun ok users rl now).succeeded = (users.filter ok).length := by
  induction users with
  | nil => intro rl now; rfl
  | cons u rest ih =>
    intro rl now
    simp only [gongRun, List.filter_cons]
    by_cases h : ok u <;> simp [h, ih]

theorem gongRun_failed (ok : Int → Bool) (users : List Int) :
    ∀ (rl : RateLimiter) (now : Int),
      (gongRun ok users rl now).failed
        = (users.filter (fun u => !ok u)).length := by
  induction users with
  | nil => intro rl now; rfl
  | cons u rest ih =>
    intro rl now
    simp only [gongRun, List.filter_cons]
    by_cases h : ok u <;> simp [h, ih]

theorem gongRun_counts (ok : Int → Bool) (users : List Int) :
    ∀ (rl : RateLimiter) (now : Int),
      (gongRun ok users rl now).succeeded + (gongRun ok users rl now).failed
        = users.length := by
  induction users with
  | nil => intro rl now; rfl
  | cons u rest ih =>
    intro rl now
    have h2 := ih (wait_if_needed rl now).1 (wait_if_needed rl now).2.1
    simp only [gongRun, List.length_cons]
    by_cases h : ok u <;> simp [h] <;> omega

theorem gongRun_sleeps_cons (ok : Int → Bool) (u : Int) (rest : List Int)
    (rl : RateLimiter) (now : Int) :
    (gongRun ok (u :: rest) rl now).sleeps
      = (if (wait_if_needed rl now).2.2 then 1 else 0)
        + (gongRun ok rest (wait_if_needed rl now).1
            (wait_if_needed rl now).2.1).sleeps := by
  simp only [gongRun]
  by_cases h : ok u <;> simp [h]

theorem gongRun_pause (ok : Int → Bool) :
    ∀ (users : List Int) (rl : RateLimiter), users ≠ [] →
      rl.messages_per_period ≤ rl.message_count + users.length →
      0 < rl.period_seconds →
      1 ≤ (gongRun ok users rl rl.period_start).sleeps := by
  intro users
  induction users with
  | nil => intro rl hne _ _; exact absurd rfl hne
  | cons u rest ih =>
    intro rl _hne hcount hW
    rw [gongRun_sleeps_cons]
    by_cases hK : rl.messages_per_period ≤ rl.message_count + 1
    · have hstep : (wait_if_needed rl rl.period_start).2.2 = true := by
        simp [wait_if_needed, hK, sub_self, hW]
      rw [hstep, if_pos rfl]
      exact Nat.le_add_right 1 _
    · have hstep : wait_if_needed rl rl.period_start
          = ({ rl with message_count := rl.message_count + 1 },
              rl.period_start, false) := by
        simp [wait_if_needed, hK]
      rw [hstep]
      simp only [Bool.false_eq_true, if_false, Nat.zero_add]
      have hlen : 1 ≤ rest.length := by
        simp only [List.length_cons] at hcount
        omega
      have hne2 : rest ≠ [] := by
        cases rest with
        | nil => simp at hlen
        | cons a t => simp
      have hcount2 : rl.messages_per_period
          ≤ rl.message_count + 1 + rest.length := by
        simp only [List.length_cons] at hcount
        omega
      exact ih { rl with message_count := rl.message_count + 1 } hne2
        hcount2 hW

/-- C1: one broadcast run attempts every recipient exactly once in list
order regardless of per-recipient delivery failures, the final report
satisfies `succeeded + failed = M` (with `succeeded` the delivered sends and
`failed` the raising ones), and with `M` recipients, a limit of `K` per
window of `W > 0` seconds, and `M > K`, the run pauses at least once. -/
theorem claim_C1_broadcast_dispatch (ok : Int → Bool) (recipients : List Int)
    (K : Nat) (W t0 : Int) (hM : K < recipients.length) (hW : 0 < W) :
    (execute_gong ok recipients K W t0).attempts = recipients ∧
    (execute_gong ok recipients K W t0).succeeded
        + (execute_gong ok recipients K W t0).failed = recipients.length ∧
    (execute_gong ok recipients K W t0).succeeded
        = (recipients.filter ok).length ∧
    (execute_gong ok recipients K W t0).failed
        = (recipients.filter (fun u => !ok u)).length ∧
    1 ≤ (execute_gong ok recipients K W t0).sleeps := by
  refine ⟨gongRun_attempts ok recipients _ _, gongRun_counts ok recipients _ _,
    gongRun_succeeded ok recipients _ _, gongRun_failed ok recipients _ _, ?_⟩
  have hne : recipients ≠ [] := by
    cases recipients with
    | nil => simp at hM
    | cons a t => simp
  exact gongRun_pause ok recipients ⟨K, W, 0, t0⟩ hne (by simpa using le_of_lt hM) hW

theorem claim_C1_broadcast_dispatch_witness :
    (execute_gong (fun u => decide (u ≠ 2)) [1, 2, 3] 2 1 0).attempts
      = [1, 2, 3] ∧
    (execute_gong (fun u => decide (u ≠ 2)) [1, 2, 3] 2 1 0).succeeded
        + (execute_gong (fun u => decide (u ≠ 2)) [1, 2, 3] 2 1 0).failed = 3 ∧
    (execute_gong (fun u => decide (u ≠ 2)) [1, 2, 3] 2 1 0).succeeded
        = ([1, 2, 3].filter (fun u => decide (u ≠ 2))).length ∧
    (execute_gong (fun u => decide (u ≠ 2)) [1, 2, 3] 2 1 0).failed
        = ([1, 2, 3].filter (fun u => !decide (u ≠ 2))).length ∧
    1 ≤ (execute_gong (fun u => decide (u ≠ 2)) [1, 2, 3] 2 1 0).sleeps :=
  claim_C1_broadcast_dispatch (fun u => decide (u ≠ 2)) [1, 2, 3] 2 1 0
    (by decide) (by decide)

theorem get_user_state_clear (σ : StateStore) (u : Int) :
    get_user_state (clear_state σ u) u = none := by
  induction σ with
  | nil => rfl
  | cons p t ih =>
    by_cases h : p.1 = u
    · simp [clear_state, clear_user_state, get_user_state, h]
    · simp [clear_state, clear_user_state, get_user_state, h]

/-- C2: the deployed publish path cannot retry.  `_publish` wraps its whole
body in `try/except` and returns `False`, so the `@retry_on_error(3, 1.0)`
decorator never sees an exception: on a transient failure (send raising
twice, succeeding the third time) the deployed code makes exactly one send
attempt, sleeps never, and reports failure, while the decorator's own policy
applied to the raw send would succeed on the third attempt after 1s and 2s
of backoff.  The conversation is indeed cleared whatever the outcome. -/
theorem claim_C2_publish_retry_defeated :
    publish_wrapped transientSends
      = ⟨.ok false, 1, []⟩ ∧
    retry_on_error 3 1 transientSends = ⟨.ok (), 3, [1, 2]⟩ ∧
    (∀ (σ : StateStore) (u : Int) (d : ConfirmData) (outcome : Bool),
      (confirm_action σ u d outcome).1 = clear_state σ u ∧
      get_user_state (confirm_action σ u d outcome).1 u = none) := by
  refine ⟨by decide, by decide, ?_⟩
  intro σ u d outcome
  cases d <;> exact ⟨rfl, get_user_state_clear σ u⟩

end MetroBot
